import Mathlib

/-!
Verification of the pancakes route handler (`lib/web.route.handler.js`) and of
the service-factory adapter merge described by the specification.

JavaScript strings are modelled as `List Char`; JavaScript objects used as
string-keyed maps are modelled as association lists with first-key-wins lookup
and replace-or-append assignment, which matches object property semantics and
insertion order.  Module-level mutable caches become explicit state threaded
through the functions; thrown exceptions become `Except` errors.
-/

/-- Character lists standing for JavaScript strings. -/
abbrev Str := List Char

/-- Lookup of a property in an object modelled as an association list:
the first binding for the key wins (association lists never hold duplicate
keys under `insertTV`, so this is exact object lookup). -/
def lookupTV {α : Type} : List (Str × α) → Str → Option α
  | [], _ => none
  | (k, v) :: rest, key => if k = key then some v else lookupTV rest key

/-- Property assignment `obj[key] = value` on an object modelled as an
association list: replaces the binding in place when the key exists
(JavaScript keeps the original insertion position) and appends otherwise. -/
def insertTV {α : Type} : List (Str × α) → Str → α → List (Str × α)
  | [], key, value => [(key, value)]
  | (k, v) :: rest, key, value =>
    if k = key then (k, value) :: rest else (k, v) :: insertTV rest key value

/-- Model of `String.prototype.indexOf` for a single character: the index of
the first occurrence, `none` standing for the JavaScript result `-1`. -/
def idxOfChar : Str → Char → Option Nat
  | [], _ => none
  | c :: rest, target =>
    if c = target then some 0 else (idxOfChar rest target).map (· + 1)

/-- Model of `String.prototype.indexOf` for a substring: the first index at
which the needle occurs in the haystack, `none` standing for `-1`. -/
def idxOfSub : Str → Str → Option Nat
  | hay, needle =>
    if needle.isPrefixOf hay then some 0
    else
      match hay with
      | [] => none
      | _ :: t => (idxOfSub t needle).map (· + 1)

/-- Result of one iteration of the `while (true)` loop in
`getTokenValuesFromUrl`: either the loop breaks with the token values
collected so far, or it continues with a shortened pattern, the remaining
URL, and the extended token-value object. -/
inductive TokenStepRes where
  | done (acc : List (Str × Str))
  | next (pattern url : Str) (acc : List (Str × Str))
deriving DecidableEq

/-- One iteration of the loop body of `getTokenValuesFromUrl`
(web.route.handler.js lines 49-85): find the next placeholder opener in the
pattern, align the URL with it, read the token name up to the closer, then
consume the URL span up to the next '/' (or end of URL), shortened to the
first occurrence of the remaining pattern in the URL when that occurrence
exists and the remaining pattern is non-empty. -/
def tokenStep (pattern url : Str) (acc : List (Str × Str)) : TokenStepRes :=
  match idxOfChar pattern '\x7b' with
  | none => .done acc
  | some idx =>
    let url1 := url.drop idx
    let pattern1 := pattern.drop (idx + 1)
    match idxOfChar pattern1 '\x7d' with
    | none => .done acc
    | some idx2 =>
      let tokenName := pattern1.take idx2
      let pattern2 := if idx2 = pattern1.length - 1 then [] else pattern1.drop (idx2 + 1)
      let slashIdx := (idxOfChar url1 '/').getD url1.length
      let cutIdx :=
        if pattern2.isEmpty then slashIdx
        else
          match idxOfSub url1 pattern2 with
          | some j => min slashIdx j
          | none => slashIdx
      let tokenValue := url1.take cutIdx
      .next pattern2 (url1.drop cutIdx) (insertTV acc tokenName tokenValue)

/-- The loop of `getTokenValuesFromUrl`, run with explicit fuel so that the
definition is structural; `none` means the fuel ran out, which
`tokenValuesLoop_isSome` below shows never happens for the fuel used by
`getTokenValuesFromUrl`. -/
def getTokenValuesLoop : Nat → Str → Str → List (Str × Str) → Option (List (Str × Str))
  | 0, _, _, _ => none
  | fuel + 1, pattern, url, acc =>
    match tokenStep pattern url acc with
    | .done a => some a
    | .next p2 u2 a2 => getTokenValuesLoop fuel p2 u2 a2

/-- Model of `getTokenValuesFromUrl(pattern, url)`: runs the scanning loop on
an initially empty token-value object.  The fuel `pattern.length + 1` is
sufficient because every iteration strictly shrinks the pattern. -/
def getTokenValuesFromUrl (pattern url : Str) : List (Str × Str) :=
  (getTokenValuesLoop (pattern.length + 1) pattern url []).getD []


/-!
Regular expressions.  `convertUrlPatternToRegex` hands its result to the
JavaScript `RegExp` engine, whose behaviour on the produced patterns is
modelled here: an AST for the regex subset that can occur (anchors, literal
characters, escaped characters, character classes, and `+` repetition), a
parser from the regex source text, and a backtracking matcher implementing
`RegExp.prototype.test` (match at any start position). -/

/-- One alternative inside a regex character class: a single character or an
inclusive character range. -/
inductive ClsItem where
  | single (c : Char)
  | range (lo hi : Char)
deriving DecidableEq

/-- Elements of the regex subset produced by `convertUrlPatternToRegex`.
`star` never comes from the parser; the matcher uses it internally for the
part of a `plus` after its first mandatory occurrence. -/
inductive RElem where
  | anchorStart
  | anchorEnd
  | lit (c : Char)
  | cls (items : List ClsItem)
  | plus (e : RElem)
  | star (e : RElem)
deriving DecidableEq

/-- Parse the body of a character class, after the opening bracket: escaped
characters are literal, `c-d` (with `d` not the closing bracket) is a
range, everything else is a single character.  Returns the items and the
text after the closing bracket.  Fuel makes the recursion structural; every
step consumes at least one character. -/
def parseCls : Nat → Str → Option (List ClsItem × Str)
  | 0, _ => none
  | _ + 1, [] => none
  | fuel + 1, c :: rest =>
    if c = ']' then some ([], rest)
    else if c = '\\' then
      match rest with
      | [] => none
      | d :: rest2 => (parseCls fuel rest2).map fun p => (ClsItem.single d :: p.1, p.2)
    else
      match rest with
      | d1 :: d2 :: rest2 =>
        if d1 = '-' ∧ d2 ≠ ']' then
          (parseCls fuel rest2).map fun p => (ClsItem.range c d2 :: p.1, p.2)
        else (parseCls fuel rest).map fun p => (ClsItem.single c :: p.1, p.2)
      | _ => (parseCls fuel rest).map fun p => (ClsItem.single c :: p.1, p.2)

/-- Parse regex source text into a list of elements, with explicit fuel so
that the recursion is structural; every step consumes at least one character,
so the fuel used by `parseRegex` is sufficient. -/
def parseRegexAux : Nat → Str → Option (List RElem)
  | 0, _ => none
  | _ + 1, [] => some []
  | fuel + 1, c :: rest =>
    if c = '^' then (parseRegexAux fuel rest).map (RElem.anchorStart :: ·)
    else if c = '$' then (parseRegexAux fuel rest).map (RElem.anchorEnd :: ·)
    else if c = '\\' then
      match rest with
      | [] => none
      | d :: rest2 =>
        match rest2 with
        | p :: rest3 =>
          if p = '+' then (parseRegexAux fuel rest3).map (RElem.plus (RElem.lit d) :: ·)
          else (parseRegexAux fuel rest2).map (RElem.lit d :: ·)
        | [] => (parseRegexAux fuel rest2).map (RElem.lit d :: ·)
    else if c = '[' then
      match parseCls fuel rest with
      | none => none
      | some (items, rest2) =>
        match rest2 with
        | p :: rest3 =>
          if p = '+' then (parseRegexAux fuel rest3).map (RElem.plus (RElem.cls items) :: ·)
          else (parseRegexAux fuel rest2).map (RElem.cls items :: ·)
        | [] => (parseRegexAux fuel rest2).map (RElem.cls items :: ·)
    else
      match rest with
      | p :: rest3 =>
        if p = '+' then (parseRegexAux fuel rest3).map (RElem.plus (RElem.lit c) :: ·)
        else (parseRegexAux fuel rest).map (RElem.lit c :: ·)
      | [] => (parseRegexAux fuel rest).map (RElem.lit c :: ·)

/-- Parse a whole regex source text. -/
def parseRegex (r : Str) : Option (List RElem) :=
  parseRegexAux (r.length + 1) r

/-- Does a character belong to a character class. -/
def clsMatchB (items : List ClsItem) (c : Char) : Bool :=
  items.any fun it =>
    match it with
    | .single d => c == d
    | .range lo hi => decide (lo ≤ c) && decide (c ≤ hi)

/-- Does a single-character regex element match a character. -/
def elemMatches : RElem → Char → Bool
  | .lit d, c => c == d
  | .cls items, c => clsMatchB items c
  | _, _ => false

/-- Backtracking matcher: does the element sequence match a prefix of `s`,
where `pos` is the number of characters already consumed from the whole
subject (needed by the `^` anchor) and `s` is the remaining subject (`$`
matches when it is empty).  `plus e` consumes one mandatory occurrence and
then behaves as `star e`, which tries both stopping and consuming another
occurrence.  Fuel makes the recursion structural; every call shrinks
`s.length + es.length`, so fuel `s.length + es.length + 1` is sufficient. -/
def matchSeq : Nat → List RElem → Str → Nat → Bool
  | 0, _, _, _ => false
  | fuel + 1, es, s, pos =>
    match es with
    | [] => true
    | .anchorStart :: es2 => (pos == 0) && matchSeq fuel es2 s pos
    | .anchorEnd :: es2 => s.isEmpty && matchSeq fuel es2 s pos
    | .lit d :: es2 =>
      match s with
      | [] => false
      | c :: s2 => (c == d) && matchSeq fuel es2 s2 (pos + 1)
    | .cls items :: es2 =>
      match s with
      | [] => false
      | c :: s2 => clsMatchB items c && matchSeq fuel es2 s2 (pos + 1)
    | .plus e :: es2 =>
      match s with
      | [] => false
      | c :: s2 => elemMatches e c && matchSeq fuel (.star e :: es2) s2 (pos + 1)
    | .star e :: es2 =>
      (match s with
       | [] => false
       | c :: s2 => elemMatches e c && matchSeq fuel (.star e :: es2) s2 (pos + 1))
      || matchSeq fuel es2 s pos

/-- Model of `RegExp.prototype.test`: try to match at every start position of
the subject (the produced regexes are anchored, so only position 0 can ever
succeed, but the engine semantics is positional search). -/
def searchFrom (es : List RElem) (s : Str) (pos : Nat) : Bool :=
  matchSeq (s.length + es.length + 1) es s pos ||
    (match s with
     | [] => false
     | _ :: s2 => searchFrom es s2 (pos + 1))

/-- Model of `regex.test(s)` for a regex given by its source text; an
unparseable source (impossible for the produced regexes) matches nothing. -/
def regexTest (r : Str) (s : Str) : Bool :=
  match parseRegex r with
  | none => false
  | some es => searchFrom es s 0

/-- Characters of the class `[a-zA-Z0-9\-_~]` used by the placeholder
regex of `convertUrlPatternToRegex` (the `i` flag of that regex changes
nothing because the class already has both cases). -/
def classChars (c : Char) : Bool :=
  (decide ('a' ≤ c) && decide (c ≤ 'z')) ||
  (decide ('A' ≤ c) && decide (c ≤ 'Z')) ||
  (decide ('0' ≤ c) && decide (c ≤ '9')) ||
  c == '-' || c == '_' || c == '~'

/-- The replacement text `[a-zA-Z0-9\-_~]+` substituted for each placeholder. -/
def classPlusStr : Str := "[a-zA-Z0-9\\-_~]+".toList

/-- The first `replace` of `convertUrlPatternToRegex`
(web.route.handler.js line 31): global replacement of every occurrence of
the regex matching an opening brace, a possibly empty run of class
characters, and a closing brace, by `classPlusStr`.  At each position the
engine takes the maximal run of class characters after an opening brace and
requires a closing brace right after it; on failure it moves one character
forward, exactly as the global regex scan does.  Fuel makes the recursion
structural; each step consumes at least one character. -/
def rexReplaceLoop : Nat → Str → Str
  | 0, s => s
  | fuel + 1, s =>
    match s with
    | [] => []
    | c :: rest =>
      if c = '\x7b' then
        match List.dropWhile classChars rest with
        | d :: tail =>
          if d = '\x7d' then classPlusStr ++ rexReplaceLoop fuel tail
          else c :: rexReplaceLoop fuel rest
        | [] => c :: rexReplaceLoop fuel rest
      else c :: rexReplaceLoop fuel rest

/-- Replace every `\x7bname\x7d` placeholder with the character-class text. -/
def rexReplacePlaceholders (p : Str) : Str :=
  rexReplaceLoop (p.length + 1) p

/-- The second `replace` of `convertUrlPatternToRegex`
(web.route.handler.js line 32): escape every path separator. -/
def escapeSlashes : Str → Str
  | [] => []
  | c :: rest =>
    if c = '/' then '\\' :: '/' :: escapeSlashes rest
    else c :: escapeSlashes rest

/-- Model of `convertUrlPatternToRegex(pattern)`
(web.route.handler.js lines 30-35): replace placeholders, escape path
separators, and anchor the whole pattern; the result is the source text the
code hands to `new RegExp`. -/
def convertUrlPatternToRegex (pattern : Str) : Str :=
  '^' :: escapeSlashes (rexReplacePlaceholders pattern) ++ ['$']


/-!
Route compilation and route resolution.  JavaScript truthiness drives the
`x || y` default chains of `getRoutes`, so optional configuration values are
modelled as `Option` (with `none` for an absent property) together with
explicit truthy-or helpers; `_.extend` then overrides a computed field with
the route-level property whenever that property is present. -/

/-- Query string of a request, modelled as a string-keyed object. -/
abbrev Query := List (Str × Str)

/-- One route declaration from an application configuration file: `name` plus
the optional per-route settings the handler reads. -/
structure Route where
  name : Str
  urls : List Str
  layout : Option Str := none
  wrapper : Option Str := none
  strip : Option Bool := none
  contentType : Option Str := none
  data : Option Str := none
deriving DecidableEq

/-- Application-level configuration consumed by `getRoutes`. -/
structure AppConfig where
  routes : List Route
  defaultLayout : Option Str := none
  defaultWrapper : Option Str := none
  defaultStrip : Option Bool := none
  data : Option Str := none
  serverOnly : Option Bool := none
deriving DecidableEq

/-- One compiled route descriptor as stored in the per-app route cache. -/
structure CompiledRoute where
  name : Str
  urlPattern : Str
  urlRegex : Str
  layout : Str
  wrapper : Str
  strip : Bool
  contentType : Option Str
  data : Option Str
  serverOnly : Option Bool
deriving DecidableEq

/-- JavaScript `a || d` where `a` is a possibly absent string: `a` when it is
present and truthy (non-empty), `d` otherwise. -/
def jsOrStr (a : Option Str) (d : Str) : Str :=
  match a with
  | some s => if s.isEmpty then d else s
  | none => d

/-- JavaScript `a || d` where `a` is a possibly absent boolean. -/
def jsOrBool (a : Option Bool) (d : Bool) : Bool :=
  match a with
  | some b => if b then b else d
  | none => d

/-- JavaScript `a || b` where both sides are possibly absent strings and the
result keeps the right side as-is when the left side is falsy. -/
def jsOrOptStr (a : Option Str) (b : Option Str) : Option Str :=
  if (match a with | some s => !s.isEmpty | none => false) then a else b

/-- The object literal built for one URL pattern inside `getRoutes`
(web.route.handler.js lines 106-114), before `_.extend` copies the route
declaration over it; the literal itself has no `name`, which `_.extend`
supplies from the route. -/
def compileRouteBase (appName : Str) (appConfig : AppConfig) (route : Route)
    (urlPattern : Str) : CompiledRoute :=
  { name := []
    urlPattern := urlPattern
    urlRegex := convertUrlPatternToRegex urlPattern
    layout := jsOrStr route.layout (jsOrStr appConfig.defaultLayout appName)
    wrapper := jsOrStr route.wrapper (jsOrStr appConfig.defaultWrapper "server.page".toList)
    strip := jsOrBool route.strip (jsOrBool appConfig.defaultStrip true)
    contentType := route.contentType
    data := jsOrOptStr route.data appConfig.data
    serverOnly := appConfig.serverOnly }

/-- The `_.extend(base, route)` step: every property present on the route
declaration overrides the corresponding computed field. -/
def extendCompiled (base : CompiledRoute) (route : Route) : CompiledRoute :=
  { base with
    name := route.name
    layout := match route.layout with | some v => v | none => base.layout
    wrapper := match route.wrapper with | some v => v | none => base.wrapper
    strip := match route.strip with | some v => v | none => base.strip
    contentType := match route.contentType with | some v => some v | none => base.contentType
    data := match route.data with | some v => some v | none => base.data }

/-- Compilation of one route declaration for one of its URL patterns. -/
def compileRoute (appName : Str) (appConfig : AppConfig) (route : Route)
    (urlPattern : Str) : CompiledRoute :=
  extendCompiled (compileRouteBase appName appConfig route urlPattern) route

/-- The per-app route cache `appRouteCache`, keyed by application name. -/
abbrev AppRouteCache := List (Str × List CompiledRoute)

/-- Model of `getRoutes(appName)` (web.route.handler.js lines 98-121): return
the cached list when present; otherwise compile one descriptor per route per
URL pattern, in declaration order, and cache the list.  The app
configuration store (an external collaborator loaded at `init`) is passed as
a total function. -/
def getRoutes (appConfigs : Str → AppConfig) (cache : AppRouteCache)
    (appName : Str) : List CompiledRoute × AppRouteCache :=
  match lookupTV cache appName with
  | some routes => (routes, cache)
  | none =>
    let appConfig := appConfigs appName
    let routes :=
      appConfig.routes.flatMap fun route =>
        route.urls.map fun urlPattern => compileRoute appName appConfig route urlPattern
    (routes, insertTV cache appName routes)

/-- The resolved route descriptor returned by `getRouteInfo`: the compiled
route fields plus the per-request fields the handler adds. -/
structure RouteInfo where
  name : Str
  urlPattern : Str
  urlRegex : Str
  layout : Str
  wrapper : Str
  strip : Bool
  contentType : Option Str
  data : Option Str
  serverOnly : Option Bool
  appName : Str
  lang : Str
  url : Str
  query : Query
  tokens : List (Str × Str)
deriving DecidableEq

/-- The `_.extend(\x7bappName, lang, url, query, tokens\x7d, route)` step of
`getRouteInfo` (web.route.handler.js lines 153-159): token values are
extracted from the original request URL, not the lowercased copy. -/
def mkRouteInfo (appName lang urlRequest : Str) (query : Query)
    (route : CompiledRoute) : RouteInfo :=
  { name := route.name
    urlPattern := route.urlPattern
    urlRegex := route.urlRegex
    layout := route.layout
    wrapper := route.wrapper
    strip := route.strip
    contentType := route.contentType
    data := route.data
    serverOnly := route.serverOnly
    appName := appName
    lang := lang
    url := urlRequest
    query := query
    tokens := getTokenValuesFromUrl route.urlPattern urlRequest }

/-- The two module-level caches touched by route resolution. -/
structure HState where
  appRouteCache : AppRouteCache
  routeInfoCache : List (Str × RouteInfo)
deriving DecidableEq

/-- Model of `url.toLowerCase()`. -/
def jsToLower (s : Str) : Str := s.map Char.toLower

/-- The cache key `appName + '||' + urlRequest` of the route-info cache. -/
def routeCacheKey (appName urlRequest : Str) : Str :=
  appName ++ "||".toList ++ urlRequest

/-- The message of the not-found error thrown by `getRouteInfo`. -/
def notFoundMsg (appName urlRequest : Str) : Str :=
  "404: ".toList ++ appName ++ " ".toList ++ urlRequest ++ " is not a valid request".toList

/-- Model of `getRouteInfo(appName, urlRequest, query, lang)`
(web.route.handler.js lines 131-169).  On a cache hit only the `query` field
of the cached entry is overwritten and the entry is returned.  On a miss the
URL is lowercased, the compiled routes are scanned in order, and the first
route whose regex matches the lowercased URL yields a descriptor that is
cached and returned; when none matches, the 404 error is thrown.  The
returned state carries both caches as left by the call (also on the error
path, since the route cache was already filled).  The repeated
subexpressions correspond to the locals cacheKey, url and routeInfo of the
source. -/
def getRouteInfo (appConfigs : Str → AppConfig) (st : HState)
    (appName urlRequest : Str) (query : Query) (lang : Str) :
    Except Str RouteInfo × HState :=
  match lookupTV st.routeInfoCache (routeCacheKey appName urlRequest) with
  | some cachedRouteInfo =>
    (.ok { cachedRouteInfo with query := query },
     { appRouteCache := st.appRouteCache
       routeInfoCache :=
         insertTV st.routeInfoCache (routeCacheKey appName urlRequest)
           ({ cachedRouteInfo with query := query }) })
  | none =>
    match (getRoutes appConfigs st.appRouteCache appName).1.find?
        (fun route => regexTest route.urlRegex (jsToLower urlRequest)) with
    | some route =>
      (.ok (mkRouteInfo appName lang urlRequest query route),
       { appRouteCache := (getRoutes appConfigs st.appRouteCache appName).2,
         routeInfoCache :=
           insertTV st.routeInfoCache (routeCacheKey appName urlRequest)
             (mkRouteInfo appName lang urlRequest query route) })
    | none =>
      (.error (notFoundMsg appName urlRequest),
       { appRouteCache := (getRoutes appConfigs st.appRouteCache appName).2,
         routeInfoCache := st.routeInfoCache })

/-!
Request pipeline.  Page models and rendered pages stay in the string world:
a model is a flat string-keyed object and a rendered page is a string.  The
injector and the client plugin are external collaborators and enter as
fields of an explicit environment. -/

/-- A page model: a flat string-keyed object. -/
abbrev Model := List (Str × Str)

/-- The rendered output of a page. -/
abbrev Rendered := Str

/-- The dependency object `initModelDeps` handed to the injector when a page
declares a model function. -/
structure InjectCtx where
  appName : Str
  tokens : List (Str × Str)
  routeInfo : RouteInfo
  defaults : Model
  currentScope : List (Str × Str)

/-- The `model` declaration of a page descriptor: absent (or otherwise
falsy), a loadable model function, or any other value (kept as its string
rendering, which the error message concatenates). -/
inductive ModelDecl where
  | empty
  | func (f : InjectCtx → Model)
  | other (repr : Str)

/-- A page descriptor module (`<name>.page` file) as read by the pipeline. -/
structure Page where
  model : ModelDecl := .empty
  defaults : Model := []

/-- External collaborators of the pipeline: the app configuration store, the
page module loader, the injector resolving a model function against its
dependency object, and the client plugin rendering a page. -/
structure Env where
  appConfigs : Str → AppConfig
  loadPage : Str → Str → Page
  injectModel : (InjectCtx → Model) → InjectCtx → Model
  renderPage : RouteInfo → Page → Model → Rendered

/-- Model of `getInitialModel(routeInfo, page)`
(web.route.handler.js lines 191-211): an empty object when the page declares
no model, the injector result for a model function, and a thrown
configuration error naming the route for any other declaration shape. -/
def getInitialModel (env : Env) (routeInfo : RouteInfo) (page : Page) :
    Except Str Model :=
  let initModelDeps : InjectCtx :=
    { appName := routeInfo.appName
      tokens := routeInfo.tokens
      routeInfo := routeInfo
      defaults := page.defaults
      currentScope := [] }
  match page.model with
  | .empty => .ok []
  | .func f => .ok (env.injectModel f initModelDeps)
  | .other r => .error (routeInfo.name ++ " page invalid model() format: ".toList ++ r)

/-- Model of `JSON.stringify` on a flat string-keyed object (an external
built-in; any injective rendering works for the cache key). -/
def serializeModel (m : Model) : Str :=
  '\x7b' :: List.intercalate ",".toList
    (m.map fun kv => '"' :: kv.1 ++ "\":\"".toList ++ kv.2 ++ ['"']) ++ ['\x7d']

/-- The page-cache key `routeInfo.url + '||' + JSON.stringify(model)`. -/
def pageCacheKey (routeInfo : RouteInfo) (model : Model) : Str :=
  routeInfo.url ++ "||".toList ++ serializeModel model

/-- Truthiness of `routeInfo.query.server`: the `server` parameter is present
with a non-empty value. -/
def queryServerTruthy (q : Query) : Bool :=
  match lookupTV q "server".toList with
  | some v => !v.isEmpty
  | none => false

/-- The page cache collaborator state: key to rendered page. -/
abbrev PageCache := List (Str × Rendered)

/-- The optional callbacks handed to `processWebRequest` by a server plugin;
the page cache itself is threaded as explicit state with the
`get`/`set` contract realised by `lookupTV`/`insertTV`. -/
structure Callbacks where
  serverPreprocessing : Option (RouteInfo → Page → Model → Bool) := none
  addToModel : Option (Model → RouteInfo → Model) := none

/-- Model of `processWebRequest(routeInfo, callbacks)`
(web.route.handler.js lines 221-261).  The result is `none` when the
pre-processing hook already answered the request (the promise resolves with
`null`) and `some rendered` otherwise, paired with the page cache as left by
the call.  The cached page is used only when it is truthy (a non-empty
rendering) and the request is not flagged server-only; a server-only request
renders afresh and does not store the result. -/
def processWebRequest (env : Env) (pageCache : PageCache) (routeInfo : RouteInfo)
    (callbacks : Callbacks) : Except Str (Option Rendered × PageCache) :=
  let appName := routeInfo.appName
  let serverOnly := queryServerTruthy routeInfo.query
  let page := env.loadPage appName routeInfo.name
  let serverPreprocessing := callbacks.serverPreprocessing.getD fun _ _ _ => false
  let appAddToModel := callbacks.addToModel.getD fun model _ => model
  match getInitialModel env routeInfo page with
  | .error e => .error e
  | .ok model =>
    let initialModel := model
    if serverPreprocessing routeInfo page model then
      .ok (none, pageCache)
    else
      let cacheKey := pageCacheKey routeInfo model
      let cachedPage := lookupTV pageCache cacheKey
      if (match cachedPage with | some cp => !cp.isEmpty | none => false) && !serverOnly then
        .ok (some (cachedPage.getD []), pageCache)
      else
        let withApp := appAddToModel initialModel routeInfo
        let renderedPage := env.renderPage routeInfo page withApp
        if serverOnly then .ok (some renderedPage, pageCache)
        else .ok (some renderedPage, insertTV pageCache cacheKey renderedPage)

namespace ServiceFactory

/-!
Modelled from the spec: the service factory module (`factories/service.factory`)
is not under src — only its unit tests are — so `getAdapter` and its override
merge are modelled from §4.3 of the specification: load the primary adapter
module at `adapters/<adapterName>/<adapterImpl>/<resourceName>`, fail with an
`AdapterNotFound` error when it is absent, and, for adapter categories whose
configurable policy enables the generic override layer, merge a generic
fallback module over the primary when one exists (override values replace
primary values on key collision; non-colliding primary keys survive). -/

/-- The service-name decomposition consumed by `getAdapter`. -/
structure SvcInfo where
  adapterName : Str
  adapterImpl : Str
  resourceName : Str
deriving DecidableEq

/-- Modelled from the spec: the primary adapter module path
`adapters/<adapterName>/<adapterImpl>/<resourceName>`. -/
def adapterPrimaryPath (si : SvcInfo) : Str :=
  "adapters/".toList ++ si.adapterName ++ "/".toList ++ si.adapterImpl ++
    "/".toList ++ si.resourceName

/-- Modelled from the spec: the generic override module path for the same
resource under the same adapter category. -/
def adapterGenericPath (si : SvcInfo) : Str :=
  "adapters/".toList ++ si.adapterName ++ "/generic/".toList ++ si.resourceName

/-- Modelled from the spec: merge of a generic override module over a primary
adapter module — on a key collision the override value wins, and primary
keys not overridden survive; key order follows the primary module first, as
the adapter fixture test expects. -/
def mergeOverride (primary override : List (Str × Str)) : List (Str × Str) :=
  (primary.map fun kv => (kv.1, (lookupTV override kv.1).getD kv.2)) ++
    override.filter fun kv => (lookupTV primary kv.1).isNone

/-- Modelled from the spec: `getAdapter(serviceInfo, moduleLoader)` with the
override-supporting adapter categories given as an explicit policy, as §4.3
directs; the module loader returns `none` when a module cannot be located. -/
def getAdapter (loadModule : Str → Option (List (Str × Str)))
    (overridePolicy : Str → Bool) (si : SvcInfo) :
    Except Str (List (Str × Str)) :=
  match loadModule (adapterPrimaryPath si) with
  | none => .error ("ServiceFactory could not find adapter ".toList ++ adapterPrimaryPath si)
  | some primary =>
    if overridePolicy si.adapterName then
      match loadModule (adapterGenericPath si) with
      | some override => .ok (mergeOverride primary override)
      | none => .ok primary
    else .ok primary

/-- The primary adapter fixture of the override unit test. -/
def testPrimary : List (Str × Str) :=
  [("one".toList, "one".toList), ("two".toList, "two".toList)]

/-- The generic override fixture of the override unit test. -/
def testOverride : List (Str × Str) :=
  [("two".toList, "override".toList), ("three".toList, "three".toList)]


end ServiceFactory

/-! Helper lemmas. -/

theorem lookupTV_append_some {α : Type} {l1 : List (Str × α)} {k : Str} {v : α}
    (l2 : List (Str × α)) (h : lookupTV l1 k = some v) :
    lookupTV (l1 ++ l2) k = some v := by
  induction l1 with
  | nil => simp [lookupTV] at h
  | cons kv rest ih =>
    obtain ⟨k1, v1⟩ := kv
    rw [lookupTV] at h
    by_cases hk : k1 = k
    · rw [if_pos hk] at h
      simp [lookupTV, hk, h]
    · rw [if_neg hk] at h
      simp [lookupTV, hk, ih h]

theorem lookupTV_append_none {α : Type} {l1 : List (Str × α)} {k : Str}
    (l2 : List (Str × α)) (h : lookupTV l1 k = none) :
    lookupTV (l1 ++ l2) k = lookupTV l2 k := by
  induction l1 with
  | nil => simp [lookupTV]
  | cons kv rest ih =>
    obtain ⟨k1, v1⟩ := kv
    rw [lookupTV] at h
    by_cases hk : k1 = k
    · rw [if_pos hk] at h
      simp at h
    · rw [if_neg hk] at h
      simp [lookupTV, hk, ih h]

theorem lookupTV_map_keyed {α β : Type} (g : Str → α → β) (l : List (Str × α)) (k : Str) :
    lookupTV (l.map fun kv => (kv.1, g kv.1 kv.2)) k = (lookupTV l k).map (g k) := by
  induction l with
  | nil => simp [lookupTV]
  | cons kv rest ih =>
    obtain ⟨k1, v1⟩ := kv
    by_cases hk : k1 = k
    · subst hk
      simp [lookupTV]
    · simp [lookupTV, hk, ih]

theorem lookupTV_filter_keyed {α : Type} (pred : Str → Bool) {l : List (Str × α)} {k : Str}
    (hk : pred k = true) :
    lookupTV (l.filter fun kv => pred kv.1) k = lookupTV l k := by
  induction l with
  | nil => simp [lookupTV]
  | cons kv rest ih =>
    obtain ⟨k1, v1⟩ := kv
    by_cases h1 : k1 = k
    · subst h1
      simp [List.filter_cons, hk, lookupTV]
    · cases hp : pred k1 with
      | true => simp [List.filter_cons, hp, lookupTV, h1, ih]
      | false => simp [List.filter_cons, hp, lookupTV, h1, ih]

theorem lookupTV_filter_none {α : Type} (f : Str × α → Bool) {l : List (Str × α)} {k : Str}
    (h : lookupTV l k = none) : lookupTV (l.filter f) k = none := by
  induction l with
  | nil => simp [lookupTV]
  | cons kv rest ih =>
    obtain ⟨k1, v1⟩ := kv
    rw [lookupTV] at h
    by_cases hk : k1 = k
    · rw [if_pos hk] at h
      simp at h
    · rw [if_neg hk] at h
      cases hf : f (k1, v1) with
      | true => simp [List.filter_cons, hf, lookupTV, hk, ih h]
      | false => simp [List.filter_cons, hf, ih h]

theorem mergeOverride_lookup_override {p o : List (Str × Str)} {k v : Str}
    (h : lookupTV o k = some v) :
    lookupTV (ServiceFactory.mergeOverride p o) k = some v := by
  unfold ServiceFactory.mergeOverride
  cases hp : lookupTV p k with
  | some w =>
    have h1 : lookupTV (p.map fun kv => (kv.1, (lookupTV o kv.1).getD kv.2)) k
        = some ((lookupTV o k).getD w) := by
      rw [lookupTV_map_keyed (fun key x => (lookupTV o key).getD x) p k, hp]
      rfl
    rw [lookupTV_append_some _ h1, h]
    rfl
  | none =>
    have h1 : lookupTV (p.map fun kv => (kv.1, (lookupTV o kv.1).getD kv.2)) k = none := by
      rw [lookupTV_map_keyed (fun key x => (lookupTV o key).getD x) p k, hp]
      rfl
    rw [lookupTV_append_none _ h1,
      lookupTV_filter_keyed (fun key => (lookupTV p key).isNone) (by simp [hp])]
    exact h

theorem mergeOverride_lookup_primary {p o : List (Str × Str)} {k : Str}
    (h : lookupTV o k = none) :
    lookupTV (ServiceFactory.mergeOverride p o) k = lookupTV p k := by
  unfold ServiceFactory.mergeOverride
  cases hp : lookupTV p k with
  | some w =>
    have h1 : lookupTV (p.map fun kv => (kv.1, (lookupTV o kv.1).getD kv.2)) k
        = some ((lookupTV o k).getD w) := by
      rw [lookupTV_map_keyed (fun key x => (lookupTV o key).getD x) p k, hp]
      rfl
    rw [lookupTV_append_some _ h1, h]
    rfl
  | none =>
    have h1 : lookupTV (p.map fun kv => (kv.1, (lookupTV o kv.1).getD kv.2)) k = none := by
      rw [lookupTV_map_keyed (fun key x => (lookupTV o key).getD x) p k, hp]
      rfl
    rw [lookupTV_append_none _ h1, lookupTV_filter_none _ h]

theorem idxOfChar_lt_length {s : Str} {c : Char} {i : Nat}
    (h : idxOfChar s c = some i) : i < s.length := by
  induction s generalizing i with
  | nil => simp [idxOfChar] at h
  | cons d t ih =>
    rw [idxOfChar] at h
    simp only [List.length_cons]
    split at h
    · injection h with h0
      omega
    · cases hj : idxOfChar t c with
      | none => rw [hj] at h; simp at h
      | some j =>
        rw [hj] at h
        simp at h
        have := ih hj
        omega

theorem idxOfChar_append_not_mem {a : Str} {c : Char} (b : Str) (h : c ∉ a) :
    idxOfChar (a ++ c :: b) c = some a.length := by
  induction a with
  | nil => simp [idxOfChar]
  | cons d t ih =>
    have hd : d ≠ c := fun hdc => h (hdc ▸ List.mem_cons_self d t)
    have ht : c ∉ t := fun hc => h (List.mem_cons_of_mem d hc)
    simp [idxOfChar, hd, ih ht]

theorem tokenStep_next_shrink {p u : Str} {acc : List (Str × Str)}
    {p2 u2 : Str} {a2 : List (Str × Str)}
    (h : tokenStep p u acc = .next p2 u2 a2) : p2.length < p.length := by
  unfold tokenStep at h
  split at h
  · exact absurd h (by simp)
  rename_i idx h1
  have hidx := idxOfChar_lt_length h1
  dsimp only at h
  split at h
  · exact absurd h (by simp)
  rename_i idx2 h2
  simp only [TokenStepRes.next.injEq] at h
  obtain ⟨hp, -, -⟩ := h
  rw [← hp]
  have hdroplen : (p.drop (idx + 1)).length = p.length - (idx + 1) := List.length_drop _ _
  split
  · simp only [List.length_nil]
    omega
  · have h3 : ((p.drop (idx + 1)).drop (idx2 + 1)).length
        = (p.drop (idx + 1)).length - (idx2 + 1) := List.length_drop _ _
    omega

theorem tokenValuesLoop_isSome :
    ∀ (fuel : Nat) (p u : Str) (acc : List (Str × Str)), p.length < fuel →
      (getTokenValuesLoop fuel p u acc).isSome = true := by
  intro fuel
  induction fuel with
  | zero => intro p u acc h; omega
  | succ f ih =>
    intro p u acc h
    rw [getTokenValuesLoop]
    cases hs : tokenStep p u acc with
    | done x => simp
    | next p2 u2 a2 =>
      simp only
      exact ih p2 u2 a2 (Nat.lt_of_lt_of_le (tokenStep_next_shrink hs) (Nat.le_of_lt_succ h))

theorem lookupTV_insertTV_self {α : Type} (m : List (Str × α)) (k : Str) (v : α) :
    lookupTV (insertTV m k v) k = some v := by
  induction m with
  | nil => simp [insertTV, lookupTV]
  | cons kv rest ih =>
    obtain ⟨k1, v1⟩ := kv
    by_cases h : k1 = k
    · simp [insertTV, lookupTV, h]
    · simp [insertTV, lookupTV, h, ih]

theorem dropWhile_append_all {p : Char → Bool} {n : Str} {y : Char} (b : Str)
    (hall : ∀ x ∈ n, p x = true) (hy : p y = false) :
    List.dropWhile p (n ++ y :: b) = y :: b := by
  induction n with
  | nil => simp [List.dropWhile_cons, hy]
  | cons c t ih =>
    have hc : p c = true := hall c (List.mem_cons_self c t)
    simp only [List.cons_append, List.dropWhile_cons, hc, if_pos]
    exact ih fun x hx => hall x (List.mem_cons_of_mem c hx)

theorem rexReplaceLoop_congr :
    ∀ (f1 f2 : Nat) (s : Str), s.length < f1 → s.length < f2 →
      rexReplaceLoop f1 s = rexReplaceLoop f2 s := by
  intro f1
  induction f1 with
  | zero => intro f2 s h1 _; omega
  | succ g ih =>
    intro f2 s h1 h2
    cases f2 with
    | zero => omega
    | succ g2 =>
      cases s with
      | nil => rfl
      | cons c rest =>
        have hrest1 : rest.length < g := by simp at h1; omega
        have hrest2 : rest.length < g2 := by simp at h2; omega
        by_cases hc : c = '\x7b'
        · subst hc
          cases hdw : List.dropWhile classChars rest with
          | nil => simp [rexReplaceLoop, hdw, ih g2 rest hrest1 hrest2]
          | cons d tail =>
            have htail : tail.length < rest.length := by
              have hle := (List.dropWhile_suffix (l := rest) classChars).length_le
              rw [hdw] at hle
              simp at hle
              omega
            by_cases hd : d = '\x7d'
            · subst hd
              simp [rexReplaceLoop, hdw, ih g2 tail (by omega) (by omega),
                ih g2 rest hrest1 hrest2]
            · simp [rexReplaceLoop, hdw, hd, ih g2 rest hrest1 hrest2]
        · simp [rexReplaceLoop, hc, ih g2 rest hrest1 hrest2]

theorem rexReplaceLoop_spec (a : Str) :
    ∀ (fuel : Nat) (n b : Str), '\x7b' ∉ a → (∀ c ∈ n, classChars c = true) →
      (a ++ '\x7b' :: (n ++ '\x7d' :: b)).length < fuel →
      rexReplaceLoop fuel (a ++ '\x7b' :: (n ++ '\x7d' :: b)) =
        a ++ classPlusStr ++ rexReplacePlaceholders b := by
  induction a with
  | nil =>
    intro fuel n b _ hn hlen
    cases fuel with
    | zero => simp at hlen
    | succ f =>
      have hdw : List.dropWhile classChars (n ++ '\x7d' :: b) = '\x7d' :: b :=
        dropWhile_append_all b hn (by decide)
      have hb : b.length < f := by simp at hlen; omega
      simp [rexReplaceLoop, hdw, rexReplacePlaceholders,
        rexReplaceLoop_congr f (b.length + 1) b hb (by omega)]
  | cons x a2 ih =>
    intro fuel n b hx hn hlen
    have hxne : x ≠ '\x7b' := fun hxx => hx (hxx ▸ List.mem_cons_self x a2)
    have ha2 : '\x7b' ∉ a2 := fun hmem => hx (List.mem_cons_of_mem x hmem)
    cases fuel with
    | zero => simp at hlen
    | succ f =>
      have hlen2 : (a2 ++ '\x7b' :: (n ++ '\x7d' :: b)).length < f := by
        simp at hlen ⊢
        omega
      simp [rexReplaceLoop, hxne, ih f n b ha2 hn hlen2]

theorem getRouteInfo_ok_query {cfg : Str → AppConfig} {st : HState}
    {a u : Str} {q : Query} {l : Str} {ri : RouteInfo} {st' : HState}
    (h : getRouteInfo cfg st a u q l = (.ok ri, st')) : ri.query = q := by
  unfold getRouteInfo at h
  split at h
  · simp only [Prod.mk.injEq, Except.ok.injEq] at h
    obtain ⟨hri, -⟩ := h
    rw [← hri]
  · split at h
    · simp only [Prod.mk.injEq, Except.ok.injEq] at h
      obtain ⟨hri, -⟩ := h
      rw [← hri]
      rfl
    · simp at h

theorem getRouteInfo_ok_cached {cfg : Str → AppConfig} {st : HState}
    {a u : Str} {q : Query} {l : Str} {ri : RouteInfo} {st' : HState}
    (h : getRouteInfo cfg st a u q l = (.ok ri, st')) :
    lookupTV st'.routeInfoCache (routeCacheKey a u) = some ri := by
  unfold getRouteInfo at h
  split at h
  · simp only [Prod.mk.injEq, Except.ok.injEq] at h
    obtain ⟨hri, hst⟩ := h
    rw [← hst, ← hri]
    exact lookupTV_insertTV_self _ _ _
  · split at h
    · simp only [Prod.mk.injEq, Except.ok.injEq] at h
      obtain ⟨hri, hst⟩ := h
      rw [← hst, ← hri]
      exact lookupTV_insertTV_self _ _ _
    · simp at h

/-! Claims. -/

/-- Claim C1: getTokenValuesFromUrl walks the pattern and the URL in
lockstep: each placeholder in the pattern is located, the corresponding span
of the URL is consumed up to the next '/' or the end of the URL, shortened
to the first occurrence of the remaining pattern in the URL when that
literal remainder occurs there, and the span is recorded under the token
name; in particular the pattern /posts/(id) on the URL /posts/42 yields
exactly the binding id to 42. -/
theorem claim_C1 :
    (∀ (a n r url : Str) (acc : List (Str × Str)), '\x7b' ∉ a → '\x7d' ∉ n →
      tokenStep (a ++ '\x7b' :: (n ++ '\x7d' :: r)) url acc =
        (let url1 := url.drop a.length
         let slashIdx := (idxOfChar url1 '/').getD url1.length
         let cutIdx :=
           if r.isEmpty then slashIdx
           else
             match idxOfSub url1 r with
             | some j => min slashIdx j
             | none => slashIdx
         TokenStepRes.next r (url1.drop cutIdx) (insertTV acc n (url1.take cutIdx)))) ∧
    getTokenValuesFromUrl "/posts/\x7bid\x7d".toList "/posts/42".toList
      = [("id".toList, "42".toList)] := by
  refine ⟨?_, by decide⟩
  intro a n r url acc ha hn
  have h1 : idxOfChar (a ++ '\x7b' :: (n ++ '\x7d' :: r)) '\x7b' = some a.length :=
    idxOfChar_append_not_mem _ ha
  have hdrop : (a ++ '\x7b' :: (n ++ '\x7d' :: r)).drop (a.length + 1) = n ++ '\x7d' :: r := by
    rw [List.append_cons a '\x7b' (n ++ '\x7d' :: r)]
    have hlen : (a ++ ['\x7b']).length = a.length + 1 := by simp
    rw [← hlen, List.drop_left]
  have h2 : idxOfChar (n ++ '\x7d' :: r) '\x7d' = some n.length :=
    idxOfChar_append_not_mem _ hn
  have htake : (n ++ '\x7d' :: r).take n.length = n := List.take_left n _
  have hp2 : (if n.length = (n ++ '\x7d' :: r).length - 1 then []
      else (n ++ '\x7d' :: r).drop (n.length + 1)) = r := by
    by_cases hr : r = []
    · subst hr
      simp
    · have hrlen : r.length ≠ 0 := by simpa using hr
      have hcond : ¬(n.length = (n ++ '\x7d' :: r).length - 1) := by
        simp only [List.length_append, List.length_cons]
        omega
      rw [if_neg hcond]
      rw [List.append_cons n '\x7d' r]
      have hlen : (n ++ ['\x7d']).length = n.length + 1 := by simp
      rw [← hlen, List.drop_left]
  simp only [tokenStep, h1, hdrop, h2, htake, hp2]

/-- Claim C1 witness: the lockstep equation instantiated at the pattern
/posts/(id) and the URL /posts/42. -/
theorem claim_C1_witness :
    tokenStep "/posts/\x7bid\x7d".toList "/posts/42".toList [] =
      TokenStepRes.next [] [] [("id".toList, "42".toList)] := by
  have h := claim_C1.1 "/posts/".toList "id".toList [] "/posts/42".toList []
    (by decide) (by decide)
  have heq : "/posts/".toList ++ '\x7b' :: ("id".toList ++ '\x7d' :: []) =
      "/posts/\x7bid\x7d".toList := by decide
  rw [heq] at h
  rw [h]
  decide

/-- Claim C9: the token-extraction loop terminates on every input, including
malformed patterns: every continuing iteration strictly shrinks the
remaining pattern, so running the loop with fuel one more than the pattern
length always completes, and a pattern with no opening brace, or with an
opening brace not followed by a closing brace, makes the loop break with the
token values collected so far. -/
theorem claim_C9 (pattern url : Str) (acc : List (Str × Str)) :
    (∀ (p2 u2 : Str) (a2 : List (Str × Str)),
        tokenStep pattern url acc = TokenStepRes.next p2 u2 a2 →
        p2.length < pattern.length) ∧
    (getTokenValuesLoop (pattern.length + 1) pattern url acc).isSome = true ∧
    (idxOfChar pattern '\x7b' = none → tokenStep pattern url acc = TokenStepRes.done acc) ∧
    (∀ idx, idxOfChar pattern '\x7b' = some idx →
        idxOfChar (pattern.drop (idx + 1)) '\x7d' = none →
        tokenStep pattern url acc = TokenStepRes.done acc) := by
  refine ⟨fun p2 u2 a2 h => tokenStep_next_shrink h,
    tokenValuesLoop_isSome _ _ _ _ (Nat.lt_succ_self _), ?_, ?_⟩
  · intro h
    simp [tokenStep, h]
  · intro idx h1 h2
    simp [tokenStep, h1, h2]

/-- Claim C9 witness: the loop breaks, keeping the collected tokens, on the
malformed pattern /a(x whose opening brace is never closed. -/
theorem claim_C9_witness :
    tokenStep "/a\x7bx".toList "/a7".toList [] = TokenStepRes.done [] := by
  have h := (claim_C9 "/a\x7bx".toList "/a7".toList []).2.2.2
  exact h 2 (by decide) (by decide)

/-- Claim C2: convertUrlPatternToRegex replaces every placeholder whose name
consists of class characters by the character class matching one or more
alphanumeric, hyphen, underscore or tilde characters, escapes every path
separator, anchors the result between a caret and a dollar, and the regex
compiled from /posts/(id) matches /posts/42 and rejects /posts/42/extra. -/
theorem claim_C2 :
    (∀ (a n b : Str), '\x7b' ∉ a → (∀ c ∈ n, classChars c = true) →
      rexReplacePlaceholders (a ++ '\x7b' :: (n ++ '\x7d' :: b)) =
        a ++ classPlusStr ++ rexReplacePlaceholders b) ∧
    (∀ (x y : Str), escapeSlashes (x ++ '/' :: y) =
        escapeSlashes x ++ '\\' :: '/' :: escapeSlashes y) ∧
    (∀ p : Str, (convertUrlPatternToRegex p).head? = some '^' ∧
        (convertUrlPatternToRegex p).getLast? = some '$') ∧
    regexTest (convertUrlPatternToRegex "/posts/\x7bid\x7d".toList) "/posts/42".toList = true ∧
    regexTest (convertUrlPatternToRegex "/posts/\x7bid\x7d".toList) "/posts/42/extra".toList
      = false := by
  refine ⟨?_, ?_, ?_, by decide, by decide⟩
  · intro a n b ha hn
    unfold rexReplacePlaceholders
    exact rexReplaceLoop_spec a _ n b ha hn (Nat.lt_succ_self _)
  · intro x y
    induction x with
    | nil => simp [escapeSlashes]
    | cons c t ih =>
      by_cases hc : c = '/'
      · simp [escapeSlashes, hc, ih]
      · simp [escapeSlashes, hc, ih]
  · intro p
    constructor
    · rw [convertUrlPatternToRegex, List.cons_append]
      rfl
    · exact List.getLast?_concat _

/-- Claim C2 witness: the placeholder replacement instantiated at the
pattern /posts/(id). -/
theorem claim_C2_witness :
    rexReplacePlaceholders "/posts/\x7bid\x7d".toList =
      "/posts/[a-zA-Z0-9\\-_~]+".toList := by
  have h := claim_C2.1 "/posts/".toList "id".toList [] (by decide) (by decide)
  have heq : "/posts/".toList ++ '\x7b' :: ("id".toList ++ '\x7d' :: []) =
      "/posts/\x7bid\x7d".toList := by decide
  rw [heq] at h
  rw [h]
  decide

/-- Claim C3: two getRouteInfo calls with the same app name and URL but
different queries both return a descriptor carrying the query of that call,
every other field is identical across the two calls, and the entry cached
after the second call is the first result with only its query replaced. -/
theorem claim_C3 (cfg : Str → AppConfig) (st : HState) (a u : Str)
    (q1 q2 : Query) (l1 l2 : Str) (r1 r2 : RouteInfo) (st1 st2 : HState)
    (h1 : getRouteInfo cfg st a u q1 l1 = (.ok r1, st1))
    (h2 : getRouteInfo cfg st1 a u q2 l2 = (.ok r2, st2)) :
    r1.query = q1 ∧ r2.query = q2 ∧ r2 = { r1 with query := q2 } ∧
    lookupTV st2.routeInfoCache (routeCacheKey a u) = some r2 := by
  have hc1 := getRouteInfo_ok_cached h1
  refine ⟨getRouteInfo_ok_query h1, getRouteInfo_ok_query h2, ?_,
    getRouteInfo_ok_cached h2⟩
  unfold getRouteInfo at h2
  rw [hc1] at h2
  simp only [Prod.mk.injEq, Except.ok.injEq] at h2
  obtain ⟨hr, -⟩ := h2
  rw [← hr]

/-- Trivial cached descriptor for the claim C3 witness. -/
def c3r0 : RouteInfo :=
  { name := [], urlPattern := [], urlRegex := [], layout := [], wrapper := [],
    strip := true, contentType := none, data := none, serverOnly := none,
    appName := [], lang := [], url := [], query := [], tokens := [] }

/-- The second query of the claim C3 witness. -/
def c3q2 : Query := [("x".toList, "1".toList)]

/-- Initial cache state of the claim C3 witness, already holding c3r0. -/
def c3st : HState :=
  { appRouteCache := [], routeInfoCache := [(routeCacheKey [] [], c3r0)] }

/-- The second result of the claim C3 witness. -/
def c3r2 : RouteInfo := { c3r0 with query := c3q2 }

/-- The state after the second call of the claim C3 witness. -/
def c3st2 : HState :=
  { appRouteCache := [], routeInfoCache := [(routeCacheKey [] [], c3r2)] }

/-- Claim C3 witness: two concrete calls through the cache-hit path. -/
theorem claim_C3_witness :
    c3r0.query = ([] : Query) ∧ c3r2.query = c3q2 ∧ c3r2 = { c3r0 with query := c3q2 } ∧
    lookupTV c3st2.routeInfoCache (routeCacheKey [] []) = some c3r2 :=
  claim_C3 (fun _ => { routes := [] }) c3st [] [] [] c3q2 [] [] c3r0 c3r2 c3st c3st2
    (by rfl) (by rfl)

/-- Claim C8: getRouteInfo fails exactly when the request key is not cached
and no compiled route regex matches the lowercased URL, and the error text
is 404: app url is not a valid request. -/
theorem claim_C8 (cfg : Str → AppConfig) (st : HState) (a u : Str) (q : Query) (l : Str) :
    ((∃ e, (getRouteInfo cfg st a u q l).1 = .error e) ↔
      (lookupTV st.routeInfoCache (routeCacheKey a u) = none ∧
       ∀ route ∈ (getRoutes cfg st.appRouteCache a).1,
         regexTest route.urlRegex (jsToLower u) = false)) ∧
    (∀ e, (getRouteInfo cfg st a u q l).1 = .error e →
      e = "404: ".toList ++ a ++ " ".toList ++ u ++ " is not a valid request".toList) := by
  unfold getRouteInfo
  cases hlook : lookupTV st.routeInfoCache (routeCacheKey a u) with
  | some cached =>
    constructor
    · constructor
      · rintro ⟨e, he⟩
        simp at he
      · rintro ⟨hnone, -⟩
        exact absurd hnone (by simp)
    · intro e he
      simp at he
  | none =>
    cases hfind : (getRoutes cfg st.appRouteCache a).1.find?
        (fun route => regexTest route.urlRegex (jsToLower u)) with
    | some route =>
      simp only [hfind]
      constructor
      · constructor
        · rintro ⟨e, he⟩
          simp at he
        · rintro ⟨-, hall⟩
          have hmem := List.mem_of_find?_eq_some hfind
          have hpred := List.find?_some hfind
          exact absurd hpred (by simp [hall route hmem])
      · intro e he
        simp at he
    | none =>
      simp only [hfind]
      constructor
      · constructor
        · intro _
          refine ⟨by trivial, fun route hmem => ?_⟩
          have := List.find?_eq_none.mp hfind route hmem
          simpa using this
        · intro _
          exact ⟨notFoundMsg a u, rfl⟩
      · intro e he
        simp only [Except.error.injEq] at he
        rw [← he]
        rfl

/-- Empty route configuration of the claim C8 witness. -/
def c8cfg : Str → AppConfig := fun _ => { routes := [] }

/-- Empty cache state of the claim C8 witness. -/
def c8st : HState := { appRouteCache := [], routeInfoCache := [] }

/-- Claim C8 witness: an unmatched URL fails, and the error text is the
concatenation the claim prescribes. -/
theorem claim_C8_witness :
    (∃ e, (getRouteInfo c8cfg c8st "app".toList "/x".toList [] []).1 = .error e) ∧
    "404: app /x is not a valid request".toList =
      "404: ".toList ++ "app".toList ++ " ".toList ++ "/x".toList ++
        " is not a valid request".toList := by
  have h := claim_C8 c8cfg c8st "app".toList "/x".toList [] []
  constructor
  · apply h.1.mpr
    refine ⟨rfl, fun route hmem => ?_⟩
    rw [show (getRoutes c8cfg c8st.appRouteCache ("app".toList)).1 = [] from rfl] at hmem
    exact absurd hmem (List.not_mem_nil route)
  · exact h.2 "404: app /x is not a valid request".toList (by rfl)

/-- Claim C10: on a cache miss the matching is done against the lowercased
URL, while the returned descriptor keeps the original request URL and
extracts its token values from that original URL. -/
theorem claim_C10 (cfg : Str → AppConfig) (st : HState) (a u : Str) (q : Query) (l : Str)
    (ri : RouteInfo) (st' : HState)
    (hmiss : lookupTV st.routeInfoCache (routeCacheKey a u) = none)
    (hok : getRouteInfo cfg st a u q l = (.ok ri, st')) :
    ∃ route ∈ (getRoutes cfg st.appRouteCache a).1,
      regexTest route.urlRegex (jsToLower u) = true ∧
      ri = mkRouteInfo a l u q route ∧ ri.url = u ∧
      ri.tokens = getTokenValuesFromUrl route.urlPattern u := by
  unfold getRouteInfo at hok
  split at hok
  · rename_i cached heq
    rw [hmiss] at heq
    exact absurd heq (by simp)
  · split at hok
    · rename_i route hfind
      simp only [Prod.mk.injEq, Except.ok.injEq] at hok
      obtain ⟨hri, -⟩ := hok
      refine ⟨route, List.mem_of_find?_eq_some hfind, ?_, hri.symm, ?_, ?_⟩
      · simpa using List.find?_some hfind
      · rw [← hri]
        rfl
      · rw [← hri]
        rfl
    · simp at hok

/-- Route configuration of the claim C10 witness. -/
def c10route : Route := { name := "post".toList, urls := ["/posts/\x7bid\x7d".toList] }

/-- App configuration of the claim C10 witness. -/
def c10cfg : AppConfig := { routes := [c10route] }

/-- The descriptor the claim C10 witness expects. -/
def c10ri : RouteInfo :=
  mkRouteInfo "app".toList [] "/Posts/AbC".toList []
    (compileRoute "app".toList c10cfg c10route "/posts/\x7bid\x7d".toList)

/-- Claim C10 witness: a mixed-case URL matches through its lowercased copy
while the stored URL and token values keep the original casing. -/
theorem claim_C10_witness :
    ∃ route ∈ (getRoutes (fun _ => c10cfg) ([] : AppRouteCache) "app".toList).1,
      regexTest route.urlRegex (jsToLower "/Posts/AbC".toList) = true ∧
      c10ri = mkRouteInfo "app".toList [] "/Posts/AbC".toList [] route ∧
      c10ri.url = "/Posts/AbC".toList ∧
      c10ri.tokens = getTokenValuesFromUrl route.urlPattern "/Posts/AbC".toList :=
  claim_C10 (fun _ => c10cfg) { appRouteCache := [], routeInfoCache := [] }
    "app".toList "/Posts/AbC".toList [] [] c10ri
    (getRouteInfo (fun _ => c10cfg) { appRouteCache := [], routeInfoCache := [] }
      "app".toList "/Posts/AbC".toList [] []).2
    (by rfl) (by rfl)

/-- Route declaration with no strip setting, for the claim C4 theorems. -/
def c4route : Route := { name := "admin".toList, urls := ["/admin".toList] }

/-- App configuration whose app-level strip default is false, for the claim
C4 theorems. -/
def c4cfg : AppConfig := { routes := [c4route], defaultStrip := some false }

/-- Claim C4 counterexample: with route-level strip unset and the app-level
default set to false, the compiled route has strip true, not the app-level
false, so an unset route strip does not inherit a false default. -/
theorem claim_C4_counterexample :
    c4cfg.defaultStrip = some false ∧ c4route.strip = none ∧
    (getRoutes (fun _ => c4cfg) [] "admin".toList).1.map (fun r => r.strip) = [true] ∧
    ¬((getRoutes (fun _ => c4cfg) [] "admin".toList).1.map (fun r => r.strip) = [false]) := by
  decide

/-- Claim C4 amended: when a route declares no strip of its own, the
compiled descriptor inherits the app-level strip default only when that
default is set and true; when the default is false or unset the chained
truthiness fallback makes strip true, so strip is true whenever the route
level leaves it unset. -/
theorem claim_C4_amended (cfg : Str → AppConfig) (cache : AppRouteCache) (a : Str)
    (route : Route) (urlPattern : Str)
    (hc : lookupTV cache a = none)
    (hr : route ∈ (cfg a).routes) (hu : urlPattern ∈ route.urls)
    (hs : route.strip = none) :
    compileRoute a (cfg a) route urlPattern ∈ (getRoutes cfg cache a).1 ∧
    (compileRoute a (cfg a) route urlPattern).strip = true := by
  constructor
  · unfold getRoutes
    rw [hc]
    exact List.mem_flatMap.mpr ⟨route, hr, List.mem_map.mpr ⟨urlPattern, hu, rfl⟩⟩
  · cases hd : (cfg a).defaultStrip with
    | none => simp [compileRoute, extendCompiled, compileRouteBase, hs, hd, jsOrBool]
    | some b =>
      cases b <;>
        simp [compileRoute, extendCompiled, compileRouteBase, hs, hd, jsOrBool]

/-- Claim C4 witness: the amended statement at the counterexample fixture. -/
theorem claim_C4_witness :
    compileRoute "admin".toList c4cfg c4route "/admin".toList ∈
      (getRoutes (fun _ => c4cfg) [] "admin".toList).1 ∧
    (compileRoute "admin".toList c4cfg c4route "/admin".toList).strip = true :=
  claim_C4_amended (fun _ => c4cfg) [] "admin".toList c4route "/admin".toList
    (by rfl) (by decide) (by decide) (by rfl)

/-- Claim C7: getInitialModel resolves to the empty object when the page
declares no model, resolves a model function through the injector with the
dependency object holding appName, tokens, routeInfo, defaults and an empty
current scope, and any other declaration shape throws a configuration error
naming the route and the invalid declaration. -/
theorem claim_C7 (env : Env) (ri : RouteInfo) (page : Page) :
    (page.model = ModelDecl.empty → getInitialModel env ri page = .ok []) ∧
    (∀ f, page.model = ModelDecl.func f →
      getInitialModel env ri page = .ok (env.injectModel f
        { appName := ri.appName, tokens := ri.tokens, routeInfo := ri,
          defaults := page.defaults, currentScope := [] })) ∧
    (∀ r, page.model = ModelDecl.other r →
      getInitialModel env ri page =
        .error (ri.name ++ " page invalid model() format: ".toList ++ r)) := by
  refine ⟨fun h => ?_, fun f h => ?_, fun r h => ?_⟩ <;>
    simp [getInitialModel, h]

/-- Injection environment of the claim C7 witness. -/
def c7env : Env :=
  { appConfigs := fun _ => { routes := [] }
    loadPage := fun _ _ => {}
    injectModel := fun f ctx => f ctx
    renderPage := fun _ _ _ => [] }

/-- Trivial route descriptor of the claim C7 witness. -/
def c7ri : RouteInfo :=
  { name := [], urlPattern := [], urlRegex := [], layout := [], wrapper := [],
    strip := true, contentType := none, data := none, serverOnly := none,
    appName := [], lang := [], url := [], query := [], tokens := [] }

/-- Page with an invalid model declaration for the claim C7 witness. -/
def c7page : Page := { model := ModelDecl.other "5".toList }

/-- Claim C7 witness: the configuration error at a concrete page whose model
declaration is the number five. -/
theorem claim_C7_witness :
    getInitialModel c7env c7ri c7page = .error " page invalid model() format: 5".toList := by
  have h := (claim_C7 c7env c7ri c7page).2.2 "5".toList rfl
  rw [h]
  rfl

/-- Claim C5: with a resolved model and a pre-processing hook that declines,
a truthy cached render for the key built from the URL and the serialized
model is returned unchanged when the request is not flagged server-only,
while a server-flagged request ignores the cache lookup, renders afresh, and
leaves the page cache unchanged. -/
theorem claim_C5 (env : Env) (pageCache : PageCache) (ri : RouteInfo) (cb : Callbacks)
    (model : Model) (cp : Rendered)
    (hm : getInitialModel env ri (env.loadPage ri.appName ri.name) = .ok model)
    (hpre : (cb.serverPreprocessing.getD fun _ _ _ => false) ri
        (env.loadPage ri.appName ri.name) model = false) :
    (lookupTV pageCache (pageCacheKey ri model) = some cp → cp ≠ [] →
      queryServerTruthy ri.query = false →
      processWebRequest env pageCache ri cb = .ok (some cp, pageCache)) ∧
    (queryServerTruthy ri.query = true →
      processWebRequest env pageCache ri cb =
        .ok (some (env.renderPage ri (env.loadPage ri.appName ri.name)
          ((cb.addToModel.getD fun m _ => m) model ri)), pageCache)) := by
  constructor
  · intro hcache hcp hso
    have hcpe : cp.isEmpty = false := by
      cases cp with
      | nil => exact absurd rfl hcp
      | cons c t => rfl
    simp [processWebRequest, hm, hpre, hso, hcache, hcpe]
  · intro hso
    simp [processWebRequest, hm, hpre, hso]

/-- Page descriptor of the claim C5 witness. -/
def c5page : Page := {}

/-- Environment of the claim C5 witness. -/
def c5env : Env :=
  { appConfigs := fun _ => { routes := [] }
    loadPage := fun _ _ => c5page
    injectModel := fun f ctx => f ctx
    renderPage := fun _ _ _ => "page".toList }

/-- Server-flagged route descriptor of the claim C5 witness. -/
def c5ri : RouteInfo :=
  { name := [], urlPattern := [], urlRegex := [], layout := [], wrapper := [],
    strip := true, contentType := none, data := none, serverOnly := none,
    appName := [], lang := [], url := [],
    query := [("server".toList, "true".toList)], tokens := [] }

/-- Claim C5 witness: a server-flagged request renders afresh and stores
nothing. -/
theorem claim_C5_witness :
    processWebRequest c5env [] c5ri {} = .ok (some "page".toList, []) := by
  have h := (claim_C5 c5env [] c5ri {} [] [] (by rfl) (by rfl)).2 (by rfl)
  exact h.trans (by rfl)

/-- Claim C6: in the adapter override merge, the override value wins for
every key present in both modules, a key present only in the primary module
survives with its primary value, the merge is not commutative on the unit
test fixtures, and an adapter category without override support returns the
primary module unmerged. -/
theorem claim_C6 :
    (∀ (p o : List (Str × Str)) (k v : Str), lookupTV o k = some v →
      lookupTV (ServiceFactory.mergeOverride p o) k = some v) ∧
    (∀ (p o : List (Str × Str)) (k : Str), lookupTV o k = none →
      lookupTV (ServiceFactory.mergeOverride p o) k = lookupTV p k) ∧
    ServiceFactory.mergeOverride ServiceFactory.testPrimary ServiceFactory.testOverride ≠
      ServiceFactory.mergeOverride ServiceFactory.testOverride ServiceFactory.testPrimary ∧
    (∀ (load : Str → Option (List (Str × Str))) (policy : Str → Bool)
      (si : ServiceFactory.SvcInfo) (primary : List (Str × Str)),
      policy si.adapterName = false →
      load (ServiceFactory.adapterPrimaryPath si) = some primary →
      ServiceFactory.getAdapter load policy si = .ok primary) := by
  refine ⟨fun p o k v h => mergeOverride_lookup_override h,
    fun p o k h => mergeOverride_lookup_primary h, by decide, ?_⟩
  intro load policy si primary hpol hload
  simp [ServiceFactory.getAdapter, hload, hpol]

/-- Claim C6 witness: the merge law at the unit test fixtures, where the
override wins the collision on the key two. -/
theorem claim_C6_witness :
    lookupTV (ServiceFactory.mergeOverride ServiceFactory.testPrimary
      ServiceFactory.testOverride) "two".toList = some "override".toList :=
  claim_C6.1 ServiceFactory.testPrimary ServiceFactory.testOverride
    "two".toList "override".toList (by decide)
